import Mathlib

/-!
Verification of the table-merge application (`src/merge_tables.py`).

The application is a thin orchestrator around a dataframe library's join
primitive: it loads up to three tabular files by extension dispatch
(`load_data`), stores them in per-session slots, merges table 1 and table 2
on user-selected key columns via `pd.merge` (stage 1), optionally merges the
intermediate result with table 3 (stage 2), and re-encodes results to CSV
for download (`convert_df_to_csv`).

This file gives a shallow embedding of:
  * the table data model (ordered columns, rows of scalar values);
  * the library join primitive `pd.merge` as invoked by the application
    (`left_on`/`right_on` key lists, `how` in inner/left/right/outer,
    suffix pair, default `sort=False`), modelled after pandas' documented
    semantics: positional key-list pairing, equal-length validation
    (pandas raises `ValueError: len(right_on) must equal len(left_on)`
    otherwise), missing-column `KeyError`, null-filling of the unmatched
    side, primary-side row order for inner/left/right joins, and
    key-grouped row order for outer joins;
  * the extension-dispatching loader `load_data` (file parsers themselves
    are pandas calls and enter as parameters);
  * the CSV exporter `convert_df_to_csv`;
  * the per-session state machine of the Streamlit script: one slot each
    for `df1`, `df2`, `df3`, `merged_df_1_2`, with events for the uploads
    and the two merge buttons.
-/

/-- A scalar cell value. `null` models the library's missing-value marker
(NaN / None), which the join primitive inserts for unmatched rows. -/
inductive Val where
  | intV : Int → Val
  | strV : String → Val
  | null : Val
deriving DecidableEq

/-- A table: an ordered list of column names and a list of rows, each row a
list of cell values aligned positionally with the column names. -/
structure Table where
  cols : List String
  rows : List (List Val)
deriving DecidableEq

/-- Well-formedness: every row has exactly one cell per column. -/
def Table.WF (t : Table) : Prop := ∀ row ∈ t.rows, row.length = t.cols.length

instance (t : Table) : Decidable t.WF := by
  unfold Table.WF; infer_instance

/-- Flat concatenation of the images of `f`, used to express the row-major
iteration order of the join primitive. -/
def concatMap (f : α → List β) : List α → List β
  | [] => []
  | a :: as => f a ++ concatMap f as

/-! ## The join primitive (`pd.merge` as called at lines 127-134 and 193-200)

`pd.merge(left, right, left_on=keys_l, right_on=keys_r, how=how,
suffixes=(s1, s2))` with the default `sort=False`.  Key lists are paired
positionally: row `lrow` of `left` matches row `rrow` of `right` when for
every position `i` the value of `lrow` in column `keys_l[i]` equals the
value of `rrow` in column `keys_r[i]` (the library also matches its null
marker against itself here, which plain `Val` equality reproduces).

Validation, in the library's order: unequal key-list lengths raise
`ValueError` before anything else; then each named key column must exist on
its side (`KeyError`).  The model also rejects empty key lists: the
application's UI guards guarantee both lists are non-empty before the merge
button exists, so that branch is never exercised, and every theorem below
assumes non-empty keys.  Row order
with `sort=False`: inner and left joins emit left rows in input order (each
followed by its right matches in input order) and right joins emit right
rows in input order; outer joins do NOT follow the primary side's input
order - they emit rows grouped by join key, in the code order of the
library's factorization of the keys (see `outerRows`).  Overlapping
column names receive the suffix pair.  (pandas additionally coalesces the
key columns into one when a left key and its right partner carry the same
name; no claim below depends on the column list, so the model keeps both
sides' columns.) -/

/-- The four join types offered by the application's select box. -/
inductive JoinType where
  | inner | left | right | outer
deriving DecidableEq

/-- Index of the first column with the given name, as positional lookup
into a row. -/
def colIdx (cols : List String) (c : String) : Option Nat :=
  cols.findIdx? (· = c)

/-- The tuple of key values of a row, one entry per key column, in key-list
order (`none` only when the column is absent or the row too short). -/
def keyVals (cols keys : List String) (row : List Val) : List (Option Val) :=
  keys.map (fun c => (colIdx cols c).bind (fun i => row.get? i))

/-- Positional key equality between a left row and a right row:
`keys_l[i]`'s value equals `keys_r[i]`'s value for every `i`. -/
def rowsMatch (lcols rcols lk rk : List String) (lrow rrow : List Val) : Bool :=
  decide (keyVals lcols lk lrow = keyVals rcols rk rrow)

/-- A row of null markers, one per column of the side that has no match. -/
def nullRow (n : Nat) : List Val := List.replicate n Val.null

/-- The right rows matching a given left row, in right-input order. -/
def rightMatches (l r : Table) (lk rk : List String) (lrow : List Val) :
    List (List Val) :=
  r.rows.filter (fun rrow => rowsMatch l.cols r.cols lk rk lrow rrow)

/-- The left rows matching a given right row, in left-input order. -/
def leftMatches (l r : Table) (lk rk : List String) (rrow : List Val) :
    List (List Val) :=
  l.rows.filter (fun lrow => rowsMatch l.cols r.cols lk rk lrow rrow)

/-- Inner join rows: each left row paired with each of its right matches. -/
def innerRows (l r : Table) (lk rk : List String) : List (List Val) :=
  concatMap (fun lrow => (rightMatches l r lk rk lrow).map (fun rrow => lrow ++ rrow))
    l.rows

/-- The block a left row contributes to a left join: its matches, or a
single null-filled row when it has none. -/
def leftGroup (l r : Table) (lk rk : List String) (lrow : List Val) :
    List (List Val) :=
  if (rightMatches l r lk rk lrow).isEmpty then [lrow ++ nullRow r.cols.length]
  else (rightMatches l r lk rk lrow).map (fun rrow => lrow ++ rrow)

/-- Left join rows. -/
def leftRows (l r : Table) (lk rk : List String) : List (List Val) :=
  concatMap (leftGroup l r lk rk) l.rows

/-- The block a right row contributes to a right join. -/
def rightGroup (l r : Table) (lk rk : List String) (rrow : List Val) :
    List (List Val) :=
  if (leftMatches l r lk rk rrow).isEmpty then [nullRow l.cols.length ++ rrow]
  else (leftMatches l r lk rk rrow).map (fun lrow => lrow ++ rrow)

/-- Right join rows. -/
def rightRows (l r : Table) (lk rk : List String) : List (List Val) :=
  concatMap (rightGroup l r lk rk) r.rows

/-- Right rows with no left match, in right-input order. -/
def unmatchedRight (l r : Table) (lk rk : List String) : List (List Val) :=
  r.rows.filter (fun rrow => (leftMatches l r lk rk rrow).isEmpty)

/-- Keys in order of first appearance, skipping those already seen.  This
is the code order the library's factorization assigns to join keys: codes
are handed out scanning the left keys first, then the right keys, each new
key value getting the next code. -/
def firstAppearanceKeys [DecidableEq K] (seen : List K) : List K → List K
  | [] => []
  | k :: ks =>
    if k ∈ seen then firstAppearanceKeys seen ks
    else k :: firstAppearanceKeys (k :: seen) ks

/-- The outer-join block of one left-occurring key: the left rows carrying
that key, in left-input order, each crossed with its right matches (in
right-input order) or null-filled when the key has no right rows. -/
def leftKeyGroup (l r : Table) (lk rk : List String) (k : List (Option Val)) :
    List (List Val) :=
  concatMap (leftGroup l r lk rk)
    (l.rows.filter (fun lrow => decide (keyVals l.cols lk lrow = k)))

/-- The outer-join block of one right-only key: the unmatched right rows
carrying that key, in right-input order, null-filled on the left. -/
def rightOnlyKeyGroup (l r : Table) (lk rk : List String)
    (k : List (Option Val)) : List (List Val) :=
  ((unmatchedRight l r lk rk).filter
      (fun rrow => decide (keyVals r.cols rk rrow = k))).map
    (fun rrow => nullRow l.cols.length ++ rrow)

/-- Outer join rows in the library's `sort=False` output order (pandas
2.2 and later): rows are emitted grouped by join key, key groups in
factorization-code order - all left-occurring keys first, in left
first-appearance order, then the right-only keys in right first-appearance
order.  Equal keys are grouped together even when their rows were
interleaved with other keys in the input, so primary-side input order is
preserved only within each key group.  (pandas before 2.2 instead sorted
the key groups lexicographically even with `sort=False`; both variants
group equal keys together, and neither preserves primary-side input order
in general.) -/
def outerRows (l r : Table) (lk rk : List String) : List (List Val) :=
  concatMap (leftKeyGroup l r lk rk)
    (firstAppearanceKeys [] (l.rows.map (keyVals l.cols lk))) ++
    concatMap (rightOnlyKeyGroup l r lk rk)
      (firstAppearanceKeys []
        ((unmatchedRight l r lk rk).map (keyVals r.cols rk)))

/-- Result rows for the selected join type. -/
def joinRows (l r : Table) (lk rk : List String) : JoinType → List (List Val)
  | .inner => innerRows l r lk rk
  | .left => leftRows l r lk rk
  | .right => rightRows l r lk rk
  | .outer => outerRows l r lk rk

/-- Result columns: both sides' columns, overlapping names disambiguated by
the suffix pair (`suffixes=(s1, s2)` in the call). -/
def mergedCols (l r : Table) (suf : String × String) : List String :=
  l.cols.map (fun c => if r.cols.contains c then c ++ suf.1 else c) ++
    r.cols.map (fun c => if l.cols.contains c then c ++ suf.2 else c)

/-- The ways the join primitive rejects its arguments before producing a
table; any of these surfaces in the application as a caught exception. -/
inductive MergeErr where
  | keyLengthMismatch (nl nr : Nat)
  | emptyKeys
  | missingLeftKey (c : String)
  | missingRightKey (c : String)
deriving DecidableEq

/-- The call `pd.merge(...)` as issued by the application: validate the key lists, then
produce the joined table. -/
def Pd.merge (l r : Table) (lk rk : List String) (how : JoinType)
    (suf : String × String) : Except MergeErr Table :=
  if lk.length ≠ rk.length then .error (.keyLengthMismatch lk.length rk.length)
  else if lk.isEmpty then .error .emptyKeys
  else match lk.find? (fun c => !(l.cols.contains c)) with
    | some c => .error (.missingLeftKey c)
    | none => match rk.find? (fun c => !(r.cols.contains c)) with
      | some c => .error (.missingRightKey c)
      | none => .ok ⟨mergedCols l r suf, joinRows l r lk rk how⟩

/-! ## The exporter (`convert_df_to_csv`, lines 26-29)

`df.to_csv(index=False).encode('utf-8')`: a pure function of the table.
Comma as delimiter, one header line of column names, one line per row in
row order, no index column; fields containing a delimiter, quote or line
break are quoted with embedded quotes doubled (the csv module's minimal
quoting); the null marker renders as an empty field.  UTF-8 encoding is a
function of the produced string, so the model stops at the string. -/

/-- How a cell renders in CSV output. -/
def renderVal : Val → String
  | .intV i => toString i
  | .strV s => s
  | .null => ""

/-- Minimal CSV quoting of one field. -/
def csvField (s : String) : String :=
  if s.data.any (fun c => c = ',' || c = '"' || c = '\n' || c = '\r') then
    "\"" ++ ⟨concatMap (fun c => if c = '"' then ['"', '"'] else [c]) s.data⟩ ++ "\""
  else s

/-- One CSV line: comma-separated quoted fields, newline-terminated. -/
def csvLine (fields : List String) : String :=
  String.intercalate "," (fields.map csvField) ++ "\n"

/-- The exporter: header line followed by one line per row. -/
def convert_df_to_csv (t : Table) : String :=
  csvLine t.cols ++ String.join (t.rows.map (fun row => csvLine (row.map renderVal)))

/-! ## The loader (`load_data`, lines 6-23)

Dispatch on the uploaded file's name via Python's case-sensitive
`str.endswith`: `.csv` → comma parse, `.tsv`/`.txt` → tab parse,
`.xls`/`.xlsx` → spreadsheet parse, anything else → the unsupported-format
error and no table.  The parsers themselves are the library's readers
(`pd.read_csv`, `pd.read_excel`); they enter the model as parameters, and a
parser failure is the caught read exception. -/

/-- Python's `str.endswith`: the suffix's characters end the string. -/
def pyEndsWith (s suffix : String) : Bool :=
  suffix.data.isSuffixOf s.data

/-- A file name the loader dispatches to some parser (rather than to the
unsupported-format branch). -/
def recognizedName (name : String) : Bool :=
  pyEndsWith name ".csv" || pyEndsWith name ".tsv" || pyEndsWith name ".txt" ||
    pyEndsWith name ".xls" || pyEndsWith name ".xlsx"

/-- The file name lowercased character by character (used only to state
which names are case variants of supported ones). -/
def lowerName (name : String) : String :=
  ⟨name.data.map Char.toLower⟩

/-- Loader failures: unrecognized extension, or a parser exception
(`st.error` with the underlying message in the source). -/
inductive LoadErr where
  | unsupportedFormat (name : String)
  | readError (name : String) (msg : String)
deriving DecidableEq

/-- The library's file readers, abstract: comma-separated, tab-separated
and spreadsheet parsing of raw bytes. -/
structure Parsers where
  readCsv : List Nat → Except String Table
  readTsv : List Nat → Except String Table
  readExcel : List Nat → Except String Table

/-- An uploaded file: a name and raw bytes. -/
structure UploadedFile where
  name : String
  content : List Nat
deriving DecidableEq

/-- The loader `load_data`: extension dispatch in source order, unsupported names
rejected, parser exceptions reported with the file name. -/
def load_data (P : Parsers) (f : UploadedFile) : Except LoadErr Table :=
  if pyEndsWith f.name ".csv" then
    (P.readCsv f.content).mapError (LoadErr.readError f.name)
  else if pyEndsWith f.name ".tsv" || pyEndsWith f.name ".txt" then
    (P.readTsv f.content).mapError (LoadErr.readError f.name)
  else if pyEndsWith f.name ".xls" || pyEndsWith f.name ".xlsx" then
    (P.readExcel f.content).mapError (LoadErr.readError f.name)
  else .error (.unsupportedFormat f.name)

/-- Parsers that reject every input; used to instantiate theorems whose
truth does not depend on parsing. -/
def constParsers : Parsers :=
  ⟨fun _ => .error "", fun _ => .error "", fun _ => .error ""⟩

/-! ## The session state machine (lines 76-218)

`st.session_state` holds one slot per loaded table and one for the
intermediate merge result (lines 76-84).  User interactions are modelled as
events: uploading one of the three files (each assigns `load_data`'s result
to its own slot: lines 97-98, 107-108, 164-165) and pressing one of the two
merge buttons.  The stage-1 button (lines 125-138) stores the merge result
in `merged_df_1_2` on success and resets the slot to `None` on a caught
exception; the stage-2 button (lines 191-214) only displays and offers its
result for download - it writes no session slot, and its exception handler
does nothing but report the error.  The uploader for file 3 and the merge
buttons are only rendered when their guards hold (tables present, key lists
non-empty); events arriving outside those guards leave the state unchanged.
The mismatched-key-count warning (lines 116-117 and 182-183) is rendered
whenever both key lists are non-empty and of different lengths,
independently of any button press. -/

/-- The four session slots. -/
structure AppState where
  df1 : Option Table
  df2 : Option Table
  df3 : Option Table
  merged_df_1_2 : Option Table
deriving DecidableEq

/-- User-visible messages the script emits (`st.error`, `st.warning`,
`st.success`). -/
inductive Msg where
  | loadFailed (e : LoadErr)
  | mergeFailed (e : MergeErr)
  | mergeSuccess
  | finalMergeFailed (e : MergeErr)
  | finalMergeSuccess
deriving DecidableEq

/-- User interactions that change state or trigger a merge. -/
inductive Event where
  | upload1 (f : UploadedFile)
  | upload2 (f : UploadedFile)
  | upload3 (f : UploadedFile)
  | merge12 (k1 k2 : List String) (how : JoinType)
  | merge3 (km k3 : List String) (how : JoinType)

/-- The slot value an upload stores: the loaded table, or `None` when
`load_data` failed (the assignment happens unconditionally). -/
def loadSlot (P : Parsers) (f : UploadedFile) : Option Table × List Msg :=
  match load_data P f with
  | .ok t => (some t, [])
  | .error e => (none, [.loadFailed e])

/-- The warning of lines 116-117 / 182-183: rendered when both key lists
are non-empty and their lengths differ; it never blocks the merge button. -/
def keyCountWarning (k1 k2 : List String) : Bool :=
  !k1.isEmpty && !k2.isEmpty && k1.length != k2.length

/-- One interaction step of the script: the new session state and the
messages emitted by the handler that ran. -/
def step (P : Parsers) (s : AppState) : Event → AppState × List Msg
  | .upload1 f =>
    let (slot, msgs) := loadSlot P f
    ({ s with df1 := slot }, msgs)
  | .upload2 f =>
    let (slot, msgs) := loadSlot P f
    ({ s with df2 := slot }, msgs)
  | .upload3 f =>
    match s.merged_df_1_2 with
    | none => (s, [])
    | some _ =>
      let (slot, msgs) := loadSlot P f
      ({ s with df3 := slot }, msgs)
  | .merge12 k1 k2 how =>
    match s.df1, s.df2 with
    | some d1, some d2 =>
      if k1.isEmpty || k2.isEmpty then (s, [])
      else
        match Pd.merge d1 d2 k1 k2 how ("_f1", "_f2") with
        | .ok t => ({ s with merged_df_1_2 := some t }, [.mergeSuccess])
        | .error e => ({ s with merged_df_1_2 := none }, [.mergeFailed e])
    | _, _ => (s, [])
  | .merge3 km k3 how =>
    match s.merged_df_1_2, s.df3 with
    | some dm, some d3 =>
      if km.isEmpty || k3.isEmpty then (s, [])
      else
        match Pd.merge dm d3 km k3 how ("_merged", "_f3") with
        | .ok _ => (s, [.finalMergeSuccess])
        | .error e => (s, [.finalMergeFailed e])
    | _, _ => (s, [])

/-- The conditions under which the join primitive accepts its key lists:
equal lengths, non-empty, and every name present on its side. -/
def validKeys (l r : Table) (lk rk : List String) : Prop :=
  lk.length = rk.length ∧ lk ≠ [] ∧
    (∀ c ∈ lk, l.cols.contains c) ∧ (∀ c ∈ rk, r.cols.contains c)

instance (l r : Table) (lk rk : List String) : Decidable (validKeys l r lk rk) := by
  unfold validKeys; infer_instance

/-! ## Concrete tables used to instantiate the theorems -/

/-- A sample left table with columns `id`, `name`. -/
def tblA : Table :=
  ⟨["id", "name"], [[.intV 1, .strV "a"], [.intV 2, .strV "b"]]⟩

/-- A sample right table with columns `id`, `score`; `id = 2` matches
`tblA`, `id = 3` is unmatched. -/
def tblB : Table :=
  ⟨["id", "score"], [[.intV 2, .intV 10], [.intV 3, .intV 20]]⟩

/-- A left table whose duplicate key values are interleaved: keys 1, 2, 1.
The outer join groups the two key-1 rows together, so its output leaves the
left input order. -/
def tblC : Table := ⟨["k"], [[.intV 1], [.intV 2], [.intV 1]]⟩

/-- A right table matching only key 2 of `tblC`. -/
def tblD : Table := ⟨["k", "v"], [[.intV 2, .intV 7]]⟩

/-- A session state with both step-1 tables loaded. -/
def s12 : AppState := ⟨some tblA, some tblB, none, none⟩

/-- A session state with every slot occupied, as after a successful run. -/
def sFull : AppState := ⟨some tblA, some tblB, some tblB, some tblA⟩

/-! ## Helper lemmas about the join primitive -/

theorem mem_concatMap {f : α → List β} {l : List α} {b : β} :
    b ∈ concatMap f l ↔ ∃ a ∈ l, b ∈ f a := by
  induction l with
  | nil => simp [concatMap]
  | cons x xs ih => simp [concatMap, ih]

theorem map_concatMap (g : β → γ) (f : α → List β) (l : List α) :
    (concatMap f l).map g = concatMap (fun a => (f a).map g) l := by
  induction l with
  | nil => rfl
  | cons x xs ih => simp [concatMap, ih]

theorem concatMap_congr {f g : α → List β} {l : List α}
    (h : ∀ a ∈ l, f a = g a) : concatMap f l = concatMap g l := by
  induction l with
  | nil => rfl
  | cons x xs ih =>
    simp only [concatMap, h x (List.mem_cons_self x xs)]
    rw [ih (fun a ha => h a (List.mem_cons_of_mem x ha))]

theorem length_concatMap_le {f g : α → List β} {l : List α}
    (h : ∀ a ∈ l, (f a).length ≤ (g a).length) :
    (concatMap f l).length ≤ (concatMap g l).length := by
  induction l with
  | nil => exact Nat.le_refl _
  | cons x xs ih =>
    simp only [concatMap, List.length_append]
    exact Nat.add_le_add (h x (List.mem_cons_self x xs))
      (ih (fun a ha => h a (List.mem_cons_of_mem x ha)))

theorem concatMap_append (g : α → List β) (xs ys : List α) :
    concatMap g (xs ++ ys) = concatMap g xs ++ concatMap g ys := by
  induction xs with
  | nil => rfl
  | cons x xs ih => simp [concatMap, ih, List.append_assoc]

theorem concatMap_concatMap (g : β → List γ) (h : α → List β) (l : List α) :
    concatMap (fun a => concatMap g (h a)) l = concatMap g (concatMap h l) := by
  induction l with
  | nil => rfl
  | cons x xs ih => simp [concatMap, concatMap_append, ih]

theorem concatMap_perm (g : α → List β) {xs ys : List α} (h : xs.Perm ys) :
    (concatMap g xs).Perm (concatMap g ys) := by
  induction h with
  | nil => exact List.Perm.refl _
  | cons x _ ih => exact List.Perm.append_left (g x) ih
  | swap x y l =>
    show (g y ++ (g x ++ concatMap g l)).Perm (g x ++ (g y ++ concatMap g l))
    rw [← List.append_assoc, ← List.append_assoc]
    exact List.Perm.append_right _ List.perm_append_comm
  | trans _ _ ih1 ih2 => exact ih1.trans ih2

theorem mem_firstAppearanceKeys [DecidableEq K] :
    ∀ (ms seen : List K) (k : K),
      k ∈ firstAppearanceKeys seen ms → k ∈ ms ∧ k ∉ seen := by
  intro ms
  induction ms with
  | nil =>
    intro seen k h
    simp [firstAppearanceKeys] at h
  | cons m ms ih =>
    intro seen k h
    by_cases hm : m ∈ seen
    · rw [show firstAppearanceKeys seen (m :: ms)
          = firstAppearanceKeys seen ms from by
        simp [firstAppearanceKeys, hm]] at h
      obtain ⟨h1, h2⟩ := ih seen k h
      exact ⟨List.mem_cons_of_mem m h1, h2⟩
    · rw [show firstAppearanceKeys seen (m :: ms)
          = m :: firstAppearanceKeys (m :: seen) ms from by
        simp [firstAppearanceKeys, hm]] at h
      rcases List.mem_cons.mp h with rfl | h2
      · exact ⟨List.mem_cons_self k ms, hm⟩
      · obtain ⟨h3, h4⟩ := ih (m :: seen) k h2
        exact ⟨List.mem_cons_of_mem m h3,
               fun hk => h4 (List.mem_cons_of_mem m hk)⟩

/-- Processing the groups of a list in key first-appearance order is a
permutation of the list itself (with an accumulator of keys already
emitted, whose elements are skipped). -/
theorem grouped_filter_perm [DecidableEq K] (f : α → K) :
    ∀ (xs : List α) (seen : List K),
      (concatMap (fun k => xs.filter (fun x => decide (f x = k)))
          (firstAppearanceKeys seen (xs.map f))).Perm
        (xs.filter (fun x => decide (f x ∉ seen))) := by
  intro xs
  induction xs with
  | nil =>
    intro seen
    simp [concatMap, firstAppearanceKeys]
  | cons x rest ih =>
    intro seen
    by_cases hm : f x ∈ seen
    · rw [show firstAppearanceKeys seen ((x :: rest).map f)
          = firstAppearanceKeys seen (rest.map f) from by
        simp [firstAppearanceKeys, hm]]
      rw [concatMap_congr (fun k hk => by
        have hne : f x ≠ k := fun he =>
          (mem_firstAppearanceKeys _ _ _ hk).2 (he ▸ hm)
        rw [List.filter_cons, if_neg (by simp [hne])])]
      rw [show (x :: rest).filter (fun y => decide (f y ∉ seen))
          = rest.filter (fun y => decide (f y ∉ seen)) from by
        rw [List.filter_cons, if_neg (by simp [hm])]]
      exact ih seen
    · rw [show firstAppearanceKeys seen ((x :: rest).map f)
          = f x :: firstAppearanceKeys (f x :: seen) (rest.map f) from by
        simp [firstAppearanceKeys, hm]]
      simp only [concatMap]
      rw [show (x :: rest).filter (fun y => decide (f y = f x))
          = x :: rest.filter (fun y => decide (f y = f x)) from by
        rw [List.filter_cons, if_pos (by simp)]]
      rw [concatMap_congr (fun k hk => by
        have hne : f x ≠ k := fun he =>
          (mem_firstAppearanceKeys _ _ _ hk).2 (he ▸ List.mem_cons_self _ _)
        rw [List.filter_cons, if_neg (by simp [hne])])]
      rw [show (x :: rest).filter (fun y => decide (f y ∉ seen))
          = x :: rest.filter (fun y => decide (f y ∉ seen)) from by
        rw [List.filter_cons, if_pos (by simp [hm])]]
      have hsplit : (rest.filter (fun y => decide (f y = f x)) ++
          rest.filter (fun y => decide (f y ∉ f x :: seen))).Perm
          (rest.filter (fun y => decide (f y ∉ seen))) := by
        have h1 : rest.filter (fun y => decide (f y = f x))
            = (rest.filter (fun y => decide (f y ∉ seen))).filter
                (fun y => decide (f y = f x)) := by
          rw [List.filter_filter]
          apply List.filter_congr
          intro y _
          by_cases hy : f y = f x
          · simp [hy, hm]
          · simp [hy]
        have h2 : rest.filter (fun y => decide (f y ∉ f x :: seen))
            = (rest.filter (fun y => decide (f y ∉ seen))).filter
                (fun y => !decide (f y = f x)) := by
          rw [List.filter_filter]
          apply List.filter_congr
          intro y _
          by_cases hy : f y = f x
          · simp [hy, List.mem_cons]
          · by_cases hs : f y ∈ seen
            · simp [hy, hs, List.mem_cons]
            · simp [hy, hs, List.mem_cons]
        rw [h1, h2]
        exact List.filter_append_perm _ _
      exact (List.Perm.cons x
        (List.Perm.append_left _ (ih (f x :: seen)))).trans
        (List.Perm.cons x hsplit)

/-- Special case of `grouped_filter_perm` with nothing seen yet: grouping a
list by key in first-appearance order permutes the list. -/
theorem grouped_filter_perm_nil [DecidableEq K] (f : α → K) (xs : List α) :
    (concatMap (fun k => xs.filter (fun x => decide (f x = k)))
        (firstAppearanceKeys [] (xs.map f))).Perm xs := by
  have h := grouped_filter_perm f xs []
  rwa [List.filter_eq_self.mpr (fun a _ => by simp)] at h

/-- The left part of the outer join is a permutation of the left join. -/
theorem outerLeft_perm (l r : Table) (lk rk : List String) :
    (concatMap (leftKeyGroup l r lk rk)
        (firstAppearanceKeys [] (l.rows.map (keyVals l.cols lk)))).Perm
      (leftRows l r lk rk) := by
  unfold leftKeyGroup leftRows
  rw [concatMap_concatMap]
  exact concatMap_perm _ (grouped_filter_perm_nil (keyVals l.cols lk) l.rows)

/-- The right part of the outer join is a permutation of the null-filled
unmatched right rows. -/
theorem outerRight_perm (l r : Table) (lk rk : List String) :
    (concatMap (rightOnlyKeyGroup l r lk rk)
        (firstAppearanceKeys []
          ((unmatchedRight l r lk rk).map (keyVals r.cols rk)))).Perm
      ((unmatchedRight l r lk rk).map
        (fun rrow => nullRow l.cols.length ++ rrow)) := by
  unfold rightOnlyKeyGroup
  rw [← map_concatMap]
  exact List.Perm.map _
    (grouped_filter_perm_nil (keyVals r.cols rk) (unmatchedRight l r lk rk))

/-- The outer join is a permutation of the left join followed by the
null-filled unmatched right rows: the key grouping only reorders rows. -/
theorem outerRows_perm (l r : Table) (lk rk : List String) :
    (outerRows l r lk rk).Perm
      (leftRows l r lk rk ++
        (unmatchedRight l r lk rk).map
          (fun rrow => nullRow l.cols.length ++ rrow)) :=
  List.Perm.append (outerLeft_perm l r lk rk) (outerRight_perm l r lk rk)


/-- With equal-length, non-empty key lists naming existing columns, the
join primitive succeeds and returns the joined table. -/
theorem Pd.merge_ok (l r : Table) (lk rk : List String) (how : JoinType)
    (suf : String × String) (hlen : lk.length = rk.length) (hne : lk ≠ [])
    (hlk : ∀ c ∈ lk, l.cols.contains c) (hrk : ∀ c ∈ rk, r.cols.contains c) :
    Pd.merge l r lk rk how suf = .ok ⟨mergedCols l r suf, joinRows l r lk rk how⟩ := by
  unfold Pd.merge
  rw [if_neg (by simp [hlen]), if_neg (by simp [List.isEmpty_iff, hne])]
  rw [List.find?_eq_none.mpr (by intro c hc; simpa using hlk c hc)]
  rw [List.find?_eq_none.mpr (by intro c hc; simpa using hrk c hc)]

/-- Membership in the inner join rows. -/
theorem mem_innerRows {l r : Table} {lk rk : List String} {row : List Val} :
    row ∈ innerRows l r lk rk ↔
      ∃ lrow ∈ l.rows, ∃ rrow ∈ r.rows,
        rowsMatch l.cols r.cols lk rk lrow rrow = true ∧ row = lrow ++ rrow := by
  unfold innerRows rightMatches
  simp only [mem_concatMap, List.mem_map, List.mem_filter]
  constructor
  · rintro ⟨lrow, hl, rrow, ⟨hr, hm⟩, heq⟩
    exact ⟨lrow, hl, rrow, hr, hm, heq.symm⟩
  · rintro ⟨lrow, hl, rrow, hr, hm, heq⟩
    exact ⟨lrow, hl, rrow, ⟨hr, hm⟩, heq.symm⟩

/-- Membership in the block a left row contributes to a left join. -/
theorem mem_leftGroup {l r : Table} {lk rk : List String} {lrow row : List Val} :
    row ∈ leftGroup l r lk rk lrow ↔
      (∃ rrow ∈ r.rows,
        rowsMatch l.cols r.cols lk rk lrow rrow = true ∧ row = lrow ++ rrow) ∨
      ((∀ rrow ∈ r.rows, rowsMatch l.cols r.cols lk rk lrow rrow = false) ∧
        row = lrow ++ nullRow r.cols.length) := by
  unfold leftGroup rightMatches
  by_cases h : (r.rows.filter
      (fun rrow => rowsMatch l.cols r.cols lk rk lrow rrow)).isEmpty
  · rw [if_pos h]
    rw [List.isEmpty_iff, List.filter_eq_nil_iff] at h
    simp only [List.mem_singleton]
    constructor
    · intro heq
      exact Or.inr ⟨fun rrow hr => by
        have := h rrow hr; simpa using this, heq⟩
    · rintro (⟨rrow, hr, hm, _⟩ | ⟨_, heq⟩)
      · exact absurd hm (by simpa using h rrow hr)
      · exact heq
  · rw [if_neg h]
    rw [List.isEmpty_iff, List.filter_eq_nil_iff] at h
    push_neg at h
    simp only [List.mem_map, List.mem_filter]
    constructor
    · rintro ⟨rrow, ⟨hr, hm⟩, heq⟩
      exact Or.inl ⟨rrow, hr, hm, heq.symm⟩
    · rintro (⟨rrow, hr, hm, heq⟩ | ⟨hno, _⟩)
      · exact ⟨rrow, ⟨hr, hm⟩, heq.symm⟩
      · obtain ⟨rrow, hr, hm⟩ := h
        exact absurd (hno rrow hr) (by simpa using hm)

/-- Membership in the left join rows. -/
theorem mem_leftRows {l r : Table} {lk rk : List String} {row : List Val} :
    row ∈ leftRows l r lk rk ↔
      (∃ lrow ∈ l.rows, ∃ rrow ∈ r.rows,
        rowsMatch l.cols r.cols lk rk lrow rrow = true ∧ row = lrow ++ rrow) ∨
      (∃ lrow ∈ l.rows,
        (∀ rrow ∈ r.rows, rowsMatch l.cols r.cols lk rk lrow rrow = false) ∧
        row = lrow ++ nullRow r.cols.length) := by
  unfold leftRows
  simp only [mem_concatMap, mem_leftGroup]
  constructor
  · rintro ⟨lrow, hl, (⟨rrow, hr, hm, heq⟩ | ⟨hno, heq⟩)⟩
    · exact Or.inl ⟨lrow, hl, rrow, hr, hm, heq⟩
    · exact Or.inr ⟨lrow, hl, hno, heq⟩
  · rintro (⟨lrow, hl, rrow, hr, hm, heq⟩ | ⟨lrow, hl, hno, heq⟩)
    · exact ⟨lrow, hl, Or.inl ⟨rrow, hr, hm, heq⟩⟩
    · exact ⟨lrow, hl, Or.inr ⟨hno, heq⟩⟩

/-- Membership in the block a right row contributes to a right join. -/
theorem mem_rightGroup {l r : Table} {lk rk : List String} {rrow row : List Val} :
    row ∈ rightGroup l r lk rk rrow ↔
      (∃ lrow ∈ l.rows,
        rowsMatch l.cols r.cols lk rk lrow rrow = true ∧ row = lrow ++ rrow) ∨
      ((∀ lrow ∈ l.rows, rowsMatch l.cols r.cols lk rk lrow rrow = false) ∧
        row = nullRow l.cols.length ++ rrow) := by
  unfold rightGroup leftMatches
  by_cases h : (l.rows.filter
      (fun lrow => rowsMatch l.cols r.cols lk rk lrow rrow)).isEmpty
  · rw [if_pos h]
    rw [List.isEmpty_iff, List.filter_eq_nil_iff] at h
    simp only [List.mem_singleton]
    constructor
    · intro heq
      exact Or.inr ⟨fun lrow hl => by
        have := h lrow hl; simpa using this, heq⟩
    · rintro (⟨lrow, hl, hm, _⟩ | ⟨_, heq⟩)
      · exact absurd hm (by simpa using h lrow hl)
      · exact heq
  · rw [if_neg h]
    rw [List.isEmpty_iff, List.filter_eq_nil_iff] at h
    push_neg at h
    simp only [List.mem_map, List.mem_filter]
    constructor
    · rintro ⟨lrow, ⟨hl, hm⟩, heq⟩
      exact Or.inl ⟨lrow, hl, hm, heq.symm⟩
    · rintro (⟨lrow, hl, hm, heq⟩ | ⟨hno, _⟩)
      · exact ⟨lrow, ⟨hl, hm⟩, heq.symm⟩
      · obtain ⟨lrow, hl, hm⟩ := h
        exact absurd (hno lrow hl) (by simpa using hm)

/-- Membership in the right join rows. -/
theorem mem_rightRows {l r : Table} {lk rk : List String} {row : List Val} :
    row ∈ rightRows l r lk rk ↔
      (∃ lrow ∈ l.rows, ∃ rrow ∈ r.rows,
        rowsMatch l.cols r.cols lk rk lrow rrow = true ∧ row = lrow ++ rrow) ∨
      (∃ rrow ∈ r.rows,
        (∀ lrow ∈ l.rows, rowsMatch l.cols r.cols lk rk lrow rrow = false) ∧
        row = nullRow l.cols.length ++ rrow) := by
  unfold rightRows
  simp only [mem_concatMap, mem_rightGroup]
  constructor
  · rintro ⟨rrow, hr, (⟨lrow, hl, hm, heq⟩ | ⟨hno, heq⟩)⟩
    · exact Or.inl ⟨lrow, hl, rrow, hr, hm, heq⟩
    · exact Or.inr ⟨rrow, hr, hno, heq⟩
  · rintro (⟨lrow, hl, rrow, hr, hm, heq⟩ | ⟨rrow, hr, hno, heq⟩)
    · exact ⟨rrow, hr, Or.inl ⟨lrow, hl, hm, heq⟩⟩
    · exact ⟨rrow, hr, Or.inr ⟨hno, heq⟩⟩

/-- Membership in the outer join rows. -/
theorem mem_outerRows {l r : Table} {lk rk : List String} {row : List Val} :
    row ∈ outerRows l r lk rk ↔
      (∃ lrow ∈ l.rows, ∃ rrow ∈ r.rows,
        rowsMatch l.cols r.cols lk rk lrow rrow = true ∧ row = lrow ++ rrow) ∨
      (∃ lrow ∈ l.rows,
        (∀ rrow ∈ r.rows, rowsMatch l.cols r.cols lk rk lrow rrow = false) ∧
        row = lrow ++ nullRow r.cols.length) ∨
      (∃ rrow ∈ r.rows,
        (∀ lrow ∈ l.rows, rowsMatch l.cols r.cols lk rk lrow rrow = false) ∧
        row = nullRow l.cols.length ++ rrow) := by
  rw [(outerRows_perm l r lk rk).mem_iff]
  unfold unmatchedRight leftMatches
  simp only [List.mem_append, mem_leftRows, List.mem_map, List.mem_filter]
  constructor
  · rintro ((h | h) | ⟨rrow, ⟨hr, hno⟩, heq⟩)
    · exact Or.inl h
    · exact Or.inr (Or.inl h)
    · refine Or.inr (Or.inr ⟨rrow, hr, ?_, heq.symm⟩)
      rw [List.isEmpty_iff, List.filter_eq_nil_iff] at hno
      intro lrow hl
      simpa using hno lrow hl
  · rintro (h | h | ⟨rrow, hr, hno, heq⟩)
    · exact Or.inl (Or.inl h)
    · exact Or.inl (Or.inr h)
    · refine Or.inr ⟨rrow, ⟨hr, ?_⟩, heq.symm⟩
      rw [List.isEmpty_iff, List.filter_eq_nil_iff]
      intro lrow hl
      simp [hno lrow hl]

/-- Projecting a left row's left-join block onto the left columns yields
that row, repeated once per match (once in all when unmatched). -/
theorem map_take_leftGroup {l r : Table} {lk rk : List String} {lrow : List Val}
    (hlen : lrow.length = l.cols.length) :
    (leftGroup l r lk rk lrow).map (List.take l.cols.length) =
      List.replicate (max 1 (rightMatches l r lk rk lrow).length) lrow := by
  unfold leftGroup
  by_cases h : (rightMatches l r lk rk lrow).isEmpty
  · rw [if_pos h]
    rw [List.isEmpty_iff] at h
    simp [h, List.take_left' hlen]
  · rw [if_neg h]
    have hne : rightMatches l r lk rk lrow ≠ [] := by
      simpa [List.isEmpty_iff] using h
    have hm : 1 ≤ (rightMatches l r lk rk lrow).length :=
      Nat.one_le_iff_ne_zero.mpr (by simpa using hne)
    rw [Nat.max_eq_right hm, List.map_map]
    rw [show ((List.take l.cols.length) ∘ fun rrow => lrow ++ rrow) =
      (fun _ => lrow) from funext (fun rrow => List.take_left' hlen)]
    exact List.map_const' _ lrow

/-- Projecting a right row's right-join block onto the right columns yields
that row, repeated once per match (once in all when unmatched). -/
theorem map_drop_rightGroup {l r : Table} {lk rk : List String} {rrow : List Val}
    (hWF : l.WF) :
    (rightGroup l r lk rk rrow).map (List.drop l.cols.length) =
      List.replicate (max 1 (leftMatches l r lk rk rrow).length) rrow := by
  unfold rightGroup
  by_cases h : (leftMatches l r lk rk rrow).isEmpty
  · rw [if_pos h]
    rw [List.isEmpty_iff] at h
    rw [h]
    simp only [List.length_nil, List.map_cons, List.map_nil]
    rw [List.drop_left' (by simp [nullRow])]
    rfl
  · rw [if_neg h]
    have hne : leftMatches l r lk rk rrow ≠ [] := by
      simpa [List.isEmpty_iff] using h
    have hm : 1 ≤ (leftMatches l r lk rk rrow).length :=
      Nat.one_le_iff_ne_zero.mpr (by simpa using hne)
    have hc : (leftMatches l r lk rk rrow).map
        (List.drop l.cols.length ∘ fun lrow => lrow ++ rrow) =
        (leftMatches l r lk rk rrow).map (fun _ => rrow) :=
      List.map_congr_left (fun lrow hmem =>
        List.drop_left' (hWF lrow (List.mem_filter.mp hmem).1))
    rw [Nat.max_eq_right hm, List.map_map, hc]
    exact List.map_const' _ rrow

/-- Each left row contributes at least as many rows to the left join as to
the inner join. -/
theorem innerRows_length_le_leftRows {l r : Table} {lk rk : List String} :
    (innerRows l r lk rk).length ≤ (leftRows l r lk rk).length := by
  unfold innerRows leftRows
  apply length_concatMap_le
  intro lrow _
  unfold leftGroup
  by_cases h : (rightMatches l r lk rk lrow).isEmpty
  · rw [if_pos h]
    rw [List.isEmpty_iff] at h
    simp [h]
  · rw [if_neg h]

/-- The outer join has at least the left join's rows: up to the key
grouping's permutation it extends the left join by the unmatched right
rows. -/
theorem leftRows_length_le_outerRows {l r : Table} {lk rk : List String} :
    (leftRows l r lk rk).length ≤ (outerRows l r lk rk).length := by
  rw [(outerRows_perm l r lk rk).length_eq, List.length_append]
  exact Nat.le_add_right _ _

/-! ## Claims -/

/-- C1: for every pair of loaded tables and accepted key lists, the merge
implements standard relational join semantics for the selected join type.
Key equality is position-wise (`left_keys[i]` against `right_keys[i]`);
inner keeps exactly the matching pairs, left additionally keeps each
unmatched left row null-filled on the right, right the mirror image, and
outer the union of rows from both sides with the unmatched side
null-filled. -/
theorem merge_implements_join_semantics (l r : Table) (lk rk : List String)
    (suf : String × String) (hv : validKeys l r lk rk) :
    (∃ t, Pd.merge l r lk rk .inner suf = .ok t ∧
      ∀ row, row ∈ t.rows ↔
        ∃ lrow ∈ l.rows, ∃ rrow ∈ r.rows,
          rowsMatch l.cols r.cols lk rk lrow rrow = true ∧ row = lrow ++ rrow) ∧
    (∃ t, Pd.merge l r lk rk .left suf = .ok t ∧
      ∀ row, row ∈ t.rows ↔
        ((∃ lrow ∈ l.rows, ∃ rrow ∈ r.rows,
          rowsMatch l.cols r.cols lk rk lrow rrow = true ∧ row = lrow ++ rrow) ∨
         (∃ lrow ∈ l.rows,
           (∀ rrow ∈ r.rows, rowsMatch l.cols r.cols lk rk lrow rrow = false) ∧
           row = lrow ++ nullRow r.cols.length))) ∧
    (∃ t, Pd.merge l r lk rk .right suf = .ok t ∧
      ∀ row, row ∈ t.rows ↔
        ((∃ lrow ∈ l.rows, ∃ rrow ∈ r.rows,
          rowsMatch l.cols r.cols lk rk lrow rrow = true ∧ row = lrow ++ rrow) ∨
         (∃ rrow ∈ r.rows,
           (∀ lrow ∈ l.rows, rowsMatch l.cols r.cols lk rk lrow rrow = false) ∧
           row = nullRow l.cols.length ++ rrow))) ∧
    (∃ t, Pd.merge l r lk rk .outer suf = .ok t ∧
      ∀ row, row ∈ t.rows ↔
        ((∃ lrow ∈ l.rows, ∃ rrow ∈ r.rows,
          rowsMatch l.cols r.cols lk rk lrow rrow = true ∧ row = lrow ++ rrow) ∨
         (∃ lrow ∈ l.rows,
           (∀ rrow ∈ r.rows, rowsMatch l.cols r.cols lk rk lrow rrow = false) ∧
           row = lrow ++ nullRow r.cols.length) ∨
         (∃ rrow ∈ r.rows,
           (∀ lrow ∈ l.rows, rowsMatch l.cols r.cols lk rk lrow rrow = false) ∧
           row = nullRow l.cols.length ++ rrow))) := by
  obtain ⟨hlen, hne, hlk, hrk⟩ := hv
  exact ⟨⟨_, Pd.merge_ok l r lk rk .inner suf hlen hne hlk hrk,
          fun row => mem_innerRows⟩,
         ⟨_, Pd.merge_ok l r lk rk .left suf hlen hne hlk hrk,
          fun row => mem_leftRows⟩,
         ⟨_, Pd.merge_ok l r lk rk .right suf hlen hne hlk hrk,
          fun row => mem_rightRows⟩,
         ⟨_, Pd.merge_ok l r lk rk .outer suf hlen hne hlk hrk,
          fun row => mem_outerRows⟩⟩

/-- Witness for C1 at the sample tables, joined on `id`. -/
theorem merge_implements_join_semantics_witness :
    validKeys tblA tblB ["id"] ["id"] ∧
    ((∃ t, Pd.merge tblA tblB ["id"] ["id"] .inner ("_f1", "_f2") = .ok t ∧
      ∀ row, row ∈ t.rows ↔
        ∃ lrow ∈ tblA.rows, ∃ rrow ∈ tblB.rows,
          rowsMatch tblA.cols tblB.cols ["id"] ["id"] lrow rrow = true ∧
          row = lrow ++ rrow) ∧
    (∃ t, Pd.merge tblA tblB ["id"] ["id"] .left ("_f1", "_f2") = .ok t ∧
      ∀ row, row ∈ t.rows ↔
        ((∃ lrow ∈ tblA.rows, ∃ rrow ∈ tblB.rows,
          rowsMatch tblA.cols tblB.cols ["id"] ["id"] lrow rrow = true ∧
          row = lrow ++ rrow) ∨
         (∃ lrow ∈ tblA.rows,
           (∀ rrow ∈ tblB.rows,
             rowsMatch tblA.cols tblB.cols ["id"] ["id"] lrow rrow = false) ∧
           row = lrow ++ nullRow tblB.cols.length))) ∧
    (∃ t, Pd.merge tblA tblB ["id"] ["id"] .right ("_f1", "_f2") = .ok t ∧
      ∀ row, row ∈ t.rows ↔
        ((∃ lrow ∈ tblA.rows, ∃ rrow ∈ tblB.rows,
          rowsMatch tblA.cols tblB.cols ["id"] ["id"] lrow rrow = true ∧
          row = lrow ++ rrow) ∨
         (∃ rrow ∈ tblB.rows,
           (∀ lrow ∈ tblA.rows,
             rowsMatch tblA.cols tblB.cols ["id"] ["id"] lrow rrow = false) ∧
           row = nullRow tblA.cols.length ++ rrow))) ∧
    (∃ t, Pd.merge tblA tblB ["id"] ["id"] .outer ("_f1", "_f2") = .ok t ∧
      ∀ row, row ∈ t.rows ↔
        ((∃ lrow ∈ tblA.rows, ∃ rrow ∈ tblB.rows,
          rowsMatch tblA.cols tblB.cols ["id"] ["id"] lrow rrow = true ∧
          row = lrow ++ rrow) ∨
         (∃ lrow ∈ tblA.rows,
           (∀ rrow ∈ tblB.rows,
             rowsMatch tblA.cols tblB.cols ["id"] ["id"] lrow rrow = false) ∧
           row = lrow ++ nullRow tblB.cols.length) ∨
         (∃ rrow ∈ tblB.rows,
           (∀ lrow ∈ tblA.rows,
             rowsMatch tblA.cols tblB.cols ["id"] ["id"] lrow rrow = false) ∧
           row = nullRow tblA.cols.length ++ rrow)))) :=
  ⟨by decide,
   merge_implements_join_semantics tblA tblB ["id"] ["id"] ("_f1", "_f2") (by decide)⟩

/-- C4 counterexample: with interleaved duplicate left keys 1, 2, 1 the
outer merge groups the two key-1 rows together, so its rows are not the
left join (primary rows in input order) followed by the unmatched right
rows - the primary side's input order is broken at the second row.  The
same grouping occurs under the pre-2.2 lexicographic key sort, so the
refutation does not depend on the library era. -/
theorem outer_merge_reorders_primary_rows :
    Pd.merge tblC tblD ["k"] ["k"] .outer ("_f1", "_f2")
      = .ok ⟨["k_f1", "k_f2", "v"],
             [[.intV 1, .null, .null], [.intV 1, .null, .null],
              [.intV 2, .intV 2, .intV 7]]⟩ ∧
    leftRows tblC tblD ["k"] ["k"] ++
        (unmatchedRight tblC tblD ["k"] ["k"]).map
          (fun rrow => nullRow tblC.cols.length ++ rrow)
      = [[.intV 1, .null, .null], [.intV 2, .intV 2, .intV 7],
         [.intV 1, .null, .null]] ∧
    [[Val.intV 1, Val.null, Val.null], [Val.intV 1, Val.null, Val.null],
     [Val.intV 2, Val.intV 2, Val.intV 7]]
      ≠ leftRows tblC tblD ["k"] ["k"] ++
          (unmatchedRight tblC tblD ["k"] ["k"]).map
            (fun rrow => nullRow tblC.cols.length ++ rrow) := by
  refine ⟨rfl, by decide, by decide⟩

/-- C4 (amended): left and right merges emit the primary side's rows in
their original input order (projecting each result row onto the primary
columns recovers the primary rows in order, once per match and once when
unmatched).  The outer merge instead emits rows grouped by join key -
left-occurring keys first, in left first-appearance order, then the
right-only keys in right first-appearance order - where each left key
group keeps its left rows in input order with their matches or null
filling, the unmatched right rows are exactly the right rows matching no
left row, and the whole result is a permutation of the left join followed
by the null-filled unmatched right rows: primary-side input order holds
for the outer merge only within each key group. -/
theorem merge_primary_row_order_amended (l r : Table) (lk rk : List String)
    (suf : String × String) (hv : validKeys l r lk rk) (hl : l.WF) :
    (∃ t, Pd.merge l r lk rk .left suf = .ok t ∧
      t.rows.map (List.take l.cols.length) =
        concatMap (fun lrow =>
          List.replicate (max 1 (rightMatches l r lk rk lrow).length) lrow)
          l.rows) ∧
    (∃ t, Pd.merge l r lk rk .right suf = .ok t ∧
      t.rows.map (List.drop l.cols.length) =
        concatMap (fun rrow =>
          List.replicate (max 1 (leftMatches l r lk rk rrow).length) rrow)
          r.rows) ∧
    (∃ t, Pd.merge l r lk rk .outer suf = .ok t ∧
      t.rows =
        concatMap (leftKeyGroup l r lk rk)
          (firstAppearanceKeys [] (l.rows.map (keyVals l.cols lk))) ++
        concatMap (rightOnlyKeyGroup l r lk rk)
          (firstAppearanceKeys []
            ((unmatchedRight l r lk rk).map (keyVals r.cols rk))) ∧
      (∀ k, (leftKeyGroup l r lk rk k).map (List.take l.cols.length) =
        concatMap (fun lrow =>
          List.replicate (max 1 (rightMatches l r lk rk lrow).length) lrow)
          (l.rows.filter (fun lrow => decide (keyVals l.cols lk lrow = k)))) ∧
      unmatchedRight l r lk rk = r.rows.filter (fun rrow =>
        decide (∀ lrow ∈ l.rows,
          rowsMatch l.cols r.cols lk rk lrow rrow = false)) ∧
      t.rows.Perm
        (leftRows l r lk rk ++
          (unmatchedRight l r lk rk).map
            (fun rrow => nullRow l.cols.length ++ rrow))) := by
  obtain ⟨hlen, hne, hlk, hrk⟩ := hv
  refine ⟨⟨_, Pd.merge_ok l r lk rk .left suf hlen hne hlk hrk, ?_⟩,
          ⟨_, Pd.merge_ok l r lk rk .right suf hlen hne hlk hrk, ?_⟩,
          ⟨_, Pd.merge_ok l r lk rk .outer suf hlen hne hlk hrk,
           rfl, ?_, ?_, outerRows_perm l r lk rk⟩⟩
  · show (leftRows l r lk rk).map _ = _
    unfold leftRows
    rw [map_concatMap]
    exact concatMap_congr (fun lrow hmem => map_take_leftGroup (hl lrow hmem))
  · show (rightRows l r lk rk).map _ = _
    unfold rightRows
    rw [map_concatMap]
    exact concatMap_congr (fun rrow _ => map_drop_rightGroup hl)
  · intro k
    unfold leftKeyGroup
    rw [map_concatMap]
    exact concatMap_congr
      (fun lrow hmem => map_take_leftGroup (hl lrow (List.mem_filter.mp hmem).1))
  · unfold unmatchedRight
    apply List.filter_congr
    intro rrow _
    unfold leftMatches
    by_cases hall : ∀ lrow ∈ l.rows, rowsMatch l.cols r.cols lk rk lrow rrow = false
    · rw [decide_eq_true hall, List.isEmpty_iff, List.filter_eq_nil_iff]
      intro lrow hlr
      simp [hall lrow hlr]
    · rw [decide_eq_false hall, Bool.eq_false_iff]
      intro hemp
      apply hall
      rw [List.isEmpty_iff, List.filter_eq_nil_iff] at hemp
      intro lrow hlr
      simpa using hemp lrow hlr

/-- Witness for the amended C4 at the interleaved-key tables, joined on
`k`. -/
theorem merge_primary_row_order_amended_witness :
    (validKeys tblC tblD ["k"] ["k"] ∧ tblC.WF) ∧
    ((∃ t, Pd.merge tblC tblD ["k"] ["k"] .left ("_f1", "_f2") = .ok t ∧
      t.rows.map (List.take tblC.cols.length) =
        concatMap (fun lrow =>
          List.replicate (max 1 (rightMatches tblC tblD ["k"] ["k"] lrow).length)
            lrow) tblC.rows) ∧
    (∃ t, Pd.merge tblC tblD ["k"] ["k"] .right ("_f1", "_f2") = .ok t ∧
      t.rows.map (List.drop tblC.cols.length) =
        concatMap (fun rrow =>
          List.replicate (max 1 (leftMatches tblC tblD ["k"] ["k"] rrow).length)
            rrow) tblD.rows) ∧
    (∃ t, Pd.merge tblC tblD ["k"] ["k"] .outer ("_f1", "_f2") = .ok t ∧
      t.rows =
        concatMap (leftKeyGroup tblC tblD ["k"] ["k"])
          (firstAppearanceKeys [] (tblC.rows.map (keyVals tblC.cols ["k"]))) ++
        concatMap (rightOnlyKeyGroup tblC tblD ["k"] ["k"])
          (firstAppearanceKeys []
            ((unmatchedRight tblC tblD ["k"] ["k"]).map (keyVals tblD.cols ["k"]))) ∧
      (∀ k, (leftKeyGroup tblC tblD ["k"] ["k"] k).map
          (List.take tblC.cols.length) =
        concatMap (fun lrow =>
          List.replicate (max 1 (rightMatches tblC tblD ["k"] ["k"] lrow).length)
            lrow)
          (tblC.rows.filter
            (fun lrow => decide (keyVals tblC.cols ["k"] lrow = k)))) ∧
      unmatchedRight tblC tblD ["k"] ["k"] = tblD.rows.filter (fun rrow =>
        decide (∀ lrow ∈ tblC.rows,
          rowsMatch tblC.cols tblD.cols ["k"] ["k"] lrow rrow = false)) ∧
      t.rows.Perm
        (leftRows tblC tblD ["k"] ["k"] ++
          (unmatchedRight tblC tblD ["k"] ["k"]).map
            (fun rrow => nullRow tblC.cols.length ++ rrow)))) :=
  ⟨⟨by decide, by decide⟩,
   merge_primary_row_order_amended tblC tblD ["k"] ["k"] ("_f1", "_f2")
     (by decide) (by decide)⟩

/-- C5: with the same key columns, the outer merge has at least as many
rows as the left merge, which has at least as many rows as the inner
merge. -/
theorem merge_rowcount_monotonicity (l r : Table) (lk rk : List String)
    (suf : String × String) (hv : validKeys l r lk rk) :
    ∃ ti tl tout, Pd.merge l r lk rk .inner suf = .ok ti ∧
      Pd.merge l r lk rk .left suf = .ok tl ∧
      Pd.merge l r lk rk .outer suf = .ok tout ∧
      ti.rows.length ≤ tl.rows.length ∧ tl.rows.length ≤ tout.rows.length := by
  obtain ⟨hlen, hne, hlk, hrk⟩ := hv
  exact ⟨_, _, _, Pd.merge_ok l r lk rk .inner suf hlen hne hlk hrk,
         Pd.merge_ok l r lk rk .left suf hlen hne hlk hrk,
         Pd.merge_ok l r lk rk .outer suf hlen hne hlk hrk,
         innerRows_length_le_leftRows, leftRows_length_le_outerRows⟩

/-- Witness for C5 at the sample tables, joined on `id`. -/
theorem merge_rowcount_monotonicity_witness :
    validKeys tblA tblB ["id"] ["id"] ∧
    (∃ ti tl tout, Pd.merge tblA tblB ["id"] ["id"] .inner ("_f1", "_f2") = .ok ti ∧
      Pd.merge tblA tblB ["id"] ["id"] .left ("_f1", "_f2") = .ok tl ∧
      Pd.merge tblA tblB ["id"] ["id"] .outer ("_f1", "_f2") = .ok tout ∧
      ti.rows.length ≤ tl.rows.length ∧ tl.rows.length ≤ tout.rows.length) :=
  ⟨by decide,
   merge_rowcount_monotonicity tblA tblB ["id"] ["id"] ("_f1", "_f2") (by decide)⟩

/-- C2: selecting key lists of different lengths surfaces the non-fatal
warning and does not block the merge button - but, contrary to the claim,
the attempted merge does not proceed positionally up to the shorter list:
the join primitive rejects unequal key-list lengths outright, the caught
failure is reported, the output slot is cleared, and no result table is
produced.  (The source's own warning text at line 117 calls the selection
allowed, so the code contradicts its own documentation here.) -/
theorem mismatched_key_lengths_merge_fails :
    keyCountWarning ["id"] ["id", "score"] = true ∧
    Pd.merge tblA tblB ["id"] ["id", "score"] .inner ("_f1", "_f2")
      = .error (.keyLengthMismatch 1 2) ∧
    step constParsers s12 (.merge12 ["id"] ["id", "score"] .inner)
      = (⟨some tblA, some tblB, none, none⟩,
         [.mergeFailed (.keyLengthMismatch 1 2)]) :=
  ⟨rfl, rfl, rfl⟩

/-- C3: whenever the join primitive raises, the stage-1 handler catches the
error, reports it with its cause, and resets the output slot to the absent
marker (clearing any previous value); the stage-2 handler likewise reports
the caught error and stores no partial result anywhere. -/
theorem merge_failure_clears_output_slot
    (P : Parsers) (s : AppState) (d1 d2 dm d3 : Table)
    (k1 k2 km k3 : List String) (how how' : JoinType) (e e' : MergeErr)
    (h1 : s.df1 = some d1) (h2 : s.df2 = some d2)
    (hk1 : k1 ≠ []) (hk2 : k2 ≠ [])
    (hf : Pd.merge d1 d2 k1 k2 how ("_f1", "_f2") = .error e)
    (hm : s.merged_df_1_2 = some dm) (h3 : s.df3 = some d3)
    (hkm : km ≠ []) (hk3 : k3 ≠ [])
    (hf' : Pd.merge dm d3 km k3 how' ("_merged", "_f3") = .error e') :
    step P s (.merge12 k1 k2 how)
      = ({ s with merged_df_1_2 := none }, [.mergeFailed e]) ∧
    step P s (.merge3 km k3 how') = (s, [.finalMergeFailed e']) := by
  constructor
  · simp only [step, h1, h2]
    rw [if_neg (by simp [List.isEmpty_iff, hk1, hk2]), hf]
  · simp only [step, hm, h3]
    rw [if_neg (by simp [List.isEmpty_iff, hkm, hk3]), hf']

/-- Witness for C3: both merge stages failing (on mismatched key-list
lengths) from a fully populated session. -/
theorem merge_failure_clears_output_slot_witness :
    (sFull.df1 = some tblA ∧ sFull.df2 = some tblB ∧
     (["id"] : List String) ≠ [] ∧ (["id", "score"] : List String) ≠ [] ∧
     Pd.merge tblA tblB ["id"] ["id", "score"] .inner ("_f1", "_f2")
       = .error (.keyLengthMismatch 1 2) ∧
     sFull.merged_df_1_2 = some tblA ∧ sFull.df3 = some tblB ∧
     Pd.merge tblA tblB ["id"] ["id", "score"] .outer ("_merged", "_f3")
       = .error (.keyLengthMismatch 1 2)) ∧
    (step constParsers sFull (.merge12 ["id"] ["id", "score"] .inner)
       = ({ sFull with merged_df_1_2 := none },
          [.mergeFailed (.keyLengthMismatch 1 2)]) ∧
     step constParsers sFull (.merge3 ["id"] ["id", "score"] .outer)
       = (sFull, [.finalMergeFailed (.keyLengthMismatch 1 2)])) :=
  ⟨⟨rfl, rfl, by decide, by decide, rfl, rfl, rfl, rfl⟩,
   merge_failure_clears_output_slot constParsers sFull tblA tblB tblA tblB
     ["id"] ["id", "score"] ["id"] ["id", "score"] .inner .outer
     (.keyLengthMismatch 1 2) (.keyLengthMismatch 1 2)
     rfl rfl (by decide) (by decide) rfl rfl rfl (by decide) (by decide) rfl⟩

/-- C10: when the stage-2 merge raises, every session slot keeps its prior
value - the stage-2 failure path clears nothing and emits only the error
message. -/
theorem stage2_failure_preserves_state
    (P : Parsers) (s : AppState) (dm d3 : Table) (km k3 : List String)
    (how : JoinType) (e : MergeErr)
    (hm : s.merged_df_1_2 = some dm) (h3 : s.df3 = some d3)
    (hkm : km ≠ []) (hk3 : k3 ≠ [])
    (hf : Pd.merge dm d3 km k3 how ("_merged", "_f3") = .error e) :
    (step P s (.merge3 km k3 how)).1.df1 = s.df1 ∧
    (step P s (.merge3 km k3 how)).1.df2 = s.df2 ∧
    (step P s (.merge3 km k3 how)).1.df3 = s.df3 ∧
    (step P s (.merge3 km k3 how)).1.merged_df_1_2 = s.merged_df_1_2 ∧
    (step P s (.merge3 km k3 how)).2 = [.finalMergeFailed e] := by
  have hstep : step P s (.merge3 km k3 how) = (s, [.finalMergeFailed e]) := by
    simp only [step, hm, h3]
    rw [if_neg (by simp [List.isEmpty_iff, hkm, hk3]), hf]
  rw [hstep]
  exact ⟨rfl, rfl, rfl, rfl, rfl⟩

/-- Witness for C10: a stage-2 merge failing on mismatched key-list lengths
from a fully populated session. -/
theorem stage2_failure_preserves_state_witness :
    (sFull.merged_df_1_2 = some tblA ∧ sFull.df3 = some tblB ∧
     (["id"] : List String) ≠ [] ∧ (["id", "score"] : List String) ≠ [] ∧
     Pd.merge tblA tblB ["id"] ["id", "score"] .left ("_merged", "_f3")
       = .error (.keyLengthMismatch 1 2)) ∧
    ((step constParsers sFull (.merge3 ["id"] ["id", "score"] .left)).1.df1
       = sFull.df1 ∧
     (step constParsers sFull (.merge3 ["id"] ["id", "score"] .left)).1.df2
       = sFull.df2 ∧
     (step constParsers sFull (.merge3 ["id"] ["id", "score"] .left)).1.df3
       = sFull.df3 ∧
     (step constParsers sFull
        (.merge3 ["id"] ["id", "score"] .left)).1.merged_df_1_2
       = sFull.merged_df_1_2 ∧
     (step constParsers sFull (.merge3 ["id"] ["id", "score"] .left)).2
       = [.finalMergeFailed (.keyLengthMismatch 1 2)]) :=
  ⟨⟨rfl, rfl, by decide, by decide, rfl⟩,
   stage2_failure_preserves_state constParsers sFull tblA tblB
     ["id"] ["id", "score"] .left (.keyLengthMismatch 1 2)
     rfl rfl (by decide) (by decide) rfl⟩

/-- C6: the CSV exporter is deterministic - equal table inputs yield
identical output - and its output is the comma-delimited header line
followed by one line per row, with no row-index column. -/
theorem exporter_deterministic (t t' : Table) (h : t = t') :
    convert_df_to_csv t = convert_df_to_csv t' ∧
    convert_df_to_csv t =
      csvLine t.cols ++
        String.join (t.rows.map (fun row => csvLine (row.map renderVal))) :=
  ⟨by rw [h], rfl⟩

/-- Witness for C6 at a sample table, with the concrete output spelled
out. -/
theorem exporter_deterministic_witness :
    tblA = tblA ∧
    (convert_df_to_csv tblA = convert_df_to_csv tblA ∧
     convert_df_to_csv tblA =
       csvLine tblA.cols ++
         String.join (tblA.rows.map (fun row => csvLine (row.map renderVal)))) ∧
    convert_df_to_csv tblA = "id,name\n1,a\n2,b\n" :=
  ⟨rfl, exporter_deterministic tblA tblA rfl, by decide⟩

/-- C7: a file whose name carries an unrecognized suffix is rejected with
the unsupported-format error and yields no table; the upload handler then
stores only the absent marker in the file's session slot. -/
theorem unsupported_suffix_no_table (P : Parsers) (s : AppState)
    (f : UploadedFile) (h : recognizedName f.name = false) :
    load_data P f = .error (.unsupportedFormat f.name) ∧
    (step P s (.upload1 f)).1.df1 = none ∧
    (step P s (.upload2 f)).1.df2 = none := by
  simp only [recognizedName, Bool.or_eq_false_iff] at h
  obtain ⟨⟨⟨⟨h1, h2⟩, h3⟩, h4⟩, h5⟩ := h
  have hload : load_data P f = .error (.unsupportedFormat f.name) := by
    simp [load_data, h1, h2, h3, h4, h5]
  exact ⟨hload, by simp [step, loadSlot, hload], by simp [step, loadSlot, hload]⟩

/-- Witness for C7: uploading `data.json`. -/
theorem unsupported_suffix_no_table_witness :
    recognizedName "data.json" = false ∧
    (load_data constParsers ⟨"data.json", []⟩
       = .error (.unsupportedFormat "data.json") ∧
     (step constParsers s12 (.upload1 ⟨"data.json", []⟩)).1.df1 = none ∧
     (step constParsers s12 (.upload2 ⟨"data.json", []⟩)).1.df2 = none) :=
  ⟨by decide,
   unsupported_suffix_no_table constParsers s12 ⟨"data.json", []⟩ (by decide)⟩

/-- C8: uploads write only their own table slot - re-uploading file 1 or
file 2 (or file 3) leaves every other slot, in particular the stored merge
result, unchanged - and the stage-2 merge button never writes the stored
merge result either, so only the stage-1 merge button replaces it. -/
theorem upload_frame_effect (P : Parsers) (s : AppState) (f : UploadedFile)
    (km k3 : List String) (how : JoinType) :
    ((step P s (.upload1 f)).1.df2 = s.df2 ∧
     (step P s (.upload1 f)).1.df3 = s.df3 ∧
     (step P s (.upload1 f)).1.merged_df_1_2 = s.merged_df_1_2) ∧
    ((step P s (.upload2 f)).1.df1 = s.df1 ∧
     (step P s (.upload2 f)).1.df3 = s.df3 ∧
     (step P s (.upload2 f)).1.merged_df_1_2 = s.merged_df_1_2) ∧
    ((step P s (.upload3 f)).1.df1 = s.df1 ∧
     (step P s (.upload3 f)).1.df2 = s.df2 ∧
     (step P s (.upload3 f)).1.merged_df_1_2 = s.merged_df_1_2) ∧
    (step P s (.merge3 km k3 how)).1.merged_df_1_2 = s.merged_df_1_2 := by
  rcases hls : loadSlot P f with ⟨slot, msgs⟩
  refine ⟨⟨?_, ?_, ?_⟩, ⟨?_, ?_, ?_⟩, ⟨?_, ?_, ?_⟩, ?_⟩
  · simp [step, hls]
  · simp [step, hls]
  · simp [step, hls]
  · simp [step, hls]
  · simp [step, hls]
  · simp [step, hls]
  · cases hm : s.merged_df_1_2 with
    | none => simp [step, hm]
    | some dm => simp [step, hm, hls]
  · cases hm : s.merged_df_1_2 with
    | none => simp [step, hm]
    | some dm => simp [step, hm, hls]
  · cases hm : s.merged_df_1_2 with
    | none => simp [step, hm]
    | some dm => simp [step, hm, hls]
  · cases hm : s.merged_df_1_2 with
    | none => simp [step, hm]
    | some dm =>
      cases h3 : s.df3 with
      | none => simp [step, hm, h3]
      | some d3 =>
        simp only [step, hm, h3]
        split
        · exact hm
        · split <;> exact hm

/-- C9: a file name ending in an upper- or mixed-case variant of a
supported extension is dispatched case-sensitively to the
unsupported-format branch: the loader reports the error and returns no
table. -/
theorem case_sensitive_suffix_dispatch (P : Parsers) (f : UploadedFile)
    (_hlower : recognizedName (lowerName f.name) = true)
    (hexact : recognizedName f.name = false) :
    load_data P f = .error (.unsupportedFormat f.name) := by
  simp only [recognizedName, Bool.or_eq_false_iff] at hexact
  obtain ⟨⟨⟨⟨h1, h2⟩, h3⟩, h4⟩, h5⟩ := hexact
  simp [load_data, h1, h2, h3, h4, h5]

/-- Witness for C9: uploading `DATA.CSV`, whose lowercasing is supported
but whose exact name is not. -/
theorem case_sensitive_suffix_dispatch_witness :
    recognizedName (lowerName "DATA.CSV") = true ∧
    recognizedName "DATA.CSV" = false ∧
    load_data constParsers ⟨"DATA.CSV", []⟩
      = .error (.unsupportedFormat "DATA.CSV") :=
  ⟨by decide, by decide,
   case_sensitive_suffix_dispatch constParsers ⟨"DATA.CSV", []⟩
     (by decide) (by decide)⟩
